import Mathlib

/-!
Verification development for the gradient-descent teaching notebook
`07_stochastic_gradient_descent.ipynb`.

The numeric core of the notebook (loss `L`, gradient `G`, and the batch /
stochastic / momentum / RMSprop optimizer loops) is embedded shallowly.
Machine floats are modelled by exact field arithmetic (`ℚ` for the
computational claims, `ℝ` where `sqrt` or derivatives are needed); the
process-wide random shuffle stream is modelled by an explicit family
`perms : Nat → List Nat` giving, for each epoch, the index order drawn for
that epoch.
-/

namespace SGD

/-- Cost function from the notebook:
`def L(w,x,y): return 1./2.*sum((y - w[0] - w[1]*x)**2)`. -/
def L {α : Type} [Field α] (w : α × α) (xs ys : List α) : α :=
  1 / 2 * (List.zipWith (fun x y => (y - w.1 - w.2 * x) ^ 2) xs ys).sum

/-- Gradient function from the notebook:
`def G(w,x,y): return np.array([-sum(y - w[0] - w[1]*x), -sum((y - w[0] - w[1]*x)*x)])`. -/
def G {α : Type} [Field α] (w : α × α) (xs ys : List α) : α × α :=
  (-(List.zipWith (fun x y => y - w.1 - w.2 * x) xs ys).sum,
   -(List.zipWith (fun x y => (y - w.1 - w.2 * x) * x) xs ys).sum)

/-- Result length of numpy 1-D broadcasting of two shapes: if one operand has
length 1 it stretches to the other's length, otherwise lengths must agree. -/
def bcastLen {α : Type} (xs ys : List α) : Nat :=
  if xs.length = 1 then ys.length else xs.length

/-- Stretch a length-1 list to length `n` (numpy broadcasting); a list already
of length `n` is kept as is. -/
def bcast {α : Type} [Field α] (n : Nat) (l : List α) : List α :=
  if l.length = n then l else List.replicate n (l.getD 0 0)

/-- `G` with numpy's actual shape semantics: the element-wise arithmetic in
`y - w[0] - w[1]*x` raises a broadcast error (`none`) exactly when the two
lengths differ and neither is 1; otherwise the length-1 operand (if any) is
broadcast and the two sums are returned.  In particular two empty inputs
produce `sum([]) = 0` and succeed. -/
def Gnp {α : Type} [Field α] (w : α × α) (xs ys : List α) : Option (α × α) :=
  if xs.length = ys.length ∨ xs.length = 1 ∨ ys.length = 1 then
    some (G w (bcast (bcastLen xs ys) xs) (bcast (bcastLen xs ys) ys))
  else none

/-- One iteration of the batch loop: `w -= eta*G(w,x,y)` over the whole
dataset. -/
def batchStep {α : Type} [Field α] (eta : α) (xs ys : List α) (w : α × α) : α × α :=
  (w.1 - eta * (G w xs ys).1, w.2 - eta * (G w xs ys).2)

/-- The batch gradient-descent loop, carrying `(w, w_batch)`:
`for i in range(n): w -= eta*G(w,x,y); w_batch.append(w.copy())`. -/
def batchLoop {α : Type} [Field α] (eta : α) (xs ys : List α) :
    Nat → (α × α) × List (α × α) → (α × α) × List (α × α)
  | 0, s => s
  | n + 1, s =>
      batchLoop eta xs ys n (batchStep eta xs ys s.1, s.2 ++ [batchStep eta xs ys s.1])

/-- The whole batch run: trajectory initialised to `[w.copy()]`, then the loop. -/
def batchRun {α : Type} [Field α] (eta : α) (xs ys : List α) (w0 : α × α)
    (epochs : Nat) : (α × α) × List (α × α) :=
  batchLoop eta xs ys epochs (w0, [w0])

/-- A single-data-point gradient step
`w -= eta*G(w,np.array([x_sample]),np.array([y_sample]))`. -/
def pointStep {α : Type} [Field α] (eta xv yv : α) (w : α × α) : α × α :=
  (w.1 - eta * (G w [xv] [yv]).1, w.2 - eta * (G w [xv] [yv]).2)

/-- Inner loop shared by the stochastic / momentum / RMSprop cells: fold the
per-step state update `f` over the drawn index list, appending the projected
weights to the per-step trajectory after every step. -/
def innerLoop {σ β : Type} (f : σ → Nat → σ) (pr : σ → β) (idx : List Nat)
    (s : σ × List β) : σ × List β :=
  idx.foldl (fun t j => (f t.1 j, t.2 ++ [pr (f t.1 j)])) s

/-- Outer loop shared by the stochastic / momentum / RMSprop cells: at epoch
`i` the index order `perms i` is consumed (one fresh draw per epoch), the
inner loop runs over it, and the weights are appended to the epoch
trajectory at the epoch boundary.  Returns
`(final state, per-step trajectory, epoch trajectory)`. -/
def outerLoop {σ β : Type} (f : σ → Nat → σ) (pr : σ → β)
    (perms : Nat → List Nat) (s0 : σ) : Nat → σ × List β × List β
  | 0 => (s0, [pr s0], [pr s0])
  | n + 1 =>
      let p := outerLoop f pr perms s0 n
      let t := innerLoop f pr (perms n) (p.1, p.2.1)
      (t.1, t.2, p.2.2 ++ [pr t.1])

/-- The per-index stochastic step: sample `x[j]`, `y[j]`, do `pointStep`. -/
def sgdStep {α : Type} [Field α] (eta : α) (xs ys : List α) (w : α × α)
    (j : Nat) : α × α :=
  pointStep eta (xs.getD j 0) (ys.getD j 0) w

/-- The stochastic-gradient-descent cell: state is just `w`, recorded in
`w_stoch` after each single-point step and in `w_epoch` at epoch boundaries. -/
def sgdRun {α : Type} [Field α] (eta : α) (xs ys : List α)
    (perms : Nat → List Nat) (w0 : α × α) (epochs : Nat) :
    (α × α) × List (α × α) × List (α × α) :=
  outerLoop (sgdStep eta xs ys) id perms w0 epochs

/-- The momentum cell's per-index step on state `(w, delta_w)`:
`delta_w = momentum*delta_w + (1.-momentum)*G(w,[x[j]],[y[j]]); w -= eta*delta_w`. -/
def momentumStep {α : Type} [Field α] (eta mom : α) (xs ys : List α)
    (s : (α × α) × (α × α)) (j : Nat) : (α × α) × (α × α) :=
  let g := G s.1 [xs.getD j 0] [ys.getD j 0]
  let dw := (mom * s.2.1 + (1 - mom) * g.1, mom * s.2.2 + (1 - mom) * g.2)
  ((s.1.1 - eta * dw.1, s.1.2 - eta * dw.2), dw)

/-- The momentum cell: `delta_w` starts at zero, `w_momen` records `w` per
step, `w_mepoch` per epoch. -/
def momentumRun {α : Type} [Field α] (eta mom : α) (xs ys : List α)
    (perms : Nat → List Nat) (w0 : α × α) (epochs : Nat) :
    ((α × α) × (α × α)) × List (α × α) × List (α × α) :=
  outerLoop (momentumStep eta mom xs ys) Prod.fst perms (w0, (0, 0)) epochs

/-- The RMSprop cell's per-index step on state `(w, g2)`:
`gradient = G(w,[x[j]],[y[j]]); g2 = momentum*g2 + (1.-momentum)*gradient**2;
w -= eta*gradient/(np.sqrt(g2) + 1e-8)`. -/
noncomputable def rmspropStep (eta mom : ℝ) (xs ys : List ℝ)
    (s : (ℝ × ℝ) × (ℝ × ℝ)) (j : Nat) : (ℝ × ℝ) × (ℝ × ℝ) :=
  let g := G s.1 [xs.getD j 0] [ys.getD j 0]
  let g2 := (mom * s.2.1 + (1 - mom) * g.1 ^ 2, mom * s.2.2 + (1 - mom) * g.2 ^ 2)
  ((s.1.1 - eta * g.1 / (Real.sqrt g2.1 + 1 / 10 ^ 8),
    s.1.2 - eta * g.2 / (Real.sqrt g2.2 + 1 / 10 ^ 8)), g2)

/-- The RMSprop cell: `g2` starts at zero, per-step and per-epoch weight
trajectories are recorded exactly as in the momentum cell. -/
noncomputable def rmspropRun (eta mom : ℝ) (xs ys : List ℝ)
    (perms : Nat → List Nat) (w0 : ℝ × ℝ) (epochs : Nat) :
    ((ℝ × ℝ) × (ℝ × ℝ)) × List (ℝ × ℝ) × List (ℝ × ℝ) :=
  outerLoop (rmspropStep eta mom xs ys) Prod.fst perms (w0, (0, 0)) epochs

/-- The dataset cell's x-values: `x = np.linspace(0,1,21)`, i.e. `i/20` for
`i = 0..20`. -/
def datasetX : List ℚ := (List.range 21).map (fun i : Nat => (i : ℚ) / 20)

/-- The dataset cell's y-values, with the standard-normal draws passed in
explicitly: `y = x + np.random.randn(len(x))*0.1 + 1.0`. -/
def datasetY (noise : List ℚ) : List ℚ :=
  List.zipWith (fun x e => x + e * (1 / 10) + 1) datasetX noise

/-! ### Helper lemmas -/

lemma getD_map_range {β : Type} (n k : Nat) (g : Nat → β) (d : β) (hk : k < n) :
    ((List.range n).map g).getD k d = g k := by
  rw [List.getD_eq_getElem _ _ (by simpa using hk)]
  simp

lemma getD_zipWith {α β γ : Type} (f : α → β → γ) (l₁ : List α) (l₂ : List β)
    (i : Nat) (d₁ : α) (d₂ : β) (d₃ : γ) (h₁ : i < l₁.length) (h₂ : i < l₂.length) :
    (List.zipWith f l₁ l₂).getD i d₃ = f (l₁.getD i d₁) (l₂.getD i d₂) := by
  rw [List.getD_eq_getElem _ _ (by simp [h₁, h₂]),
    List.getD_eq_getElem _ _ h₁, List.getD_eq_getElem _ _ h₂]
  simp

lemma batchLoop_spec {α : Type} [Field α] (eta : α) (xs ys : List α) :
    ∀ (n : Nat) (w : α × α) (traj : List (α × α)),
      batchLoop eta xs ys n (w, traj)
        = ((batchStep eta xs ys)^[n] w,
           traj ++ (List.range n).map (fun i => (batchStep eta xs ys)^[i + 1] w)) := by
  intro n
  induction n with
  | zero => intro w traj; simp [batchLoop]
  | succ n ih =>
      intro w traj
      rw [batchLoop, ih]
      refine Prod.ext ?_ ?_
      · simp [Function.iterate_succ_apply]
      · simp only [List.range_succ_eq_map, List.map_cons, List.map_map]
        simp [Function.iterate_succ_apply, Function.comp_def]

lemma batchRun_traj {α : Type} [Field α] (eta : α) (xs ys : List α) (w0 : α × α)
    (k : Nat) :
    (batchRun eta xs ys w0 k).2
      = (List.range (k + 1)).map (fun i => (batchStep eta xs ys)^[i] w0) := by
  rw [batchRun, batchLoop_spec]
  simp only [List.range_succ_eq_map, List.map_cons, List.map_map]
  simp [Function.comp_def]

/-! ### Claim C1 -/

/-- C1 counterexample: with dataset `x = [0, 0.5, 1]`, `y = [1, 1.5, 2]`,
`w = [0,0]`, `eta = 0.01`, one batch-gradient-descent step does NOT yield
`[0.045, 0.0225]`: the true second component is `0.0275 = 11/400`, which
misses the claimed `0.0225 = 9/400` by `0.005`. -/
theorem one_batch_step_value_refuted :
    (batchRun (1 / 100 : ℚ) [0, 1 / 2, 1] [1, 3 / 2, 2] (0, 0) 1).1 ≠ (9 / 200, 9 / 400)
    ∧ (batchRun (1 / 100 : ℚ) [0, 1 / 2, 1] [1, 3 / 2, 2] (0, 0) 1).1 = (9 / 200, 11 / 400)
    ∧ (11 / 400 : ℚ) - 9 / 400 = 1 / 200 := by
  refine ⟨?_, ?_, by norm_num⟩ <;>
    norm_num [batchRun, batchLoop, batchStep, G]

/-- C1 (amended): with dataset `x = [0, 0.5, 1]`, `y = [1, 1.5, 2]`,
`w = [0,0]`, `eta = 0.01`, one batch-gradient-descent step
(`w ← w - eta * G(w, x, y)`) yields exactly `w = [0.045, 0.0275]`. -/
theorem one_batch_step_value :
    (batchRun (1 / 100 : ℚ) [0, 1 / 2, 1] [1, 3 / 2, 2] (0, 0) 1).1 = (9 / 200, 11 / 400)
    ∧ batchStep (1 / 100 : ℚ) [0, 1 / 2, 1] [1, 3 / 2, 2] (0, 0) = (9 / 200, 11 / 400) := by
  constructor <;> norm_num [batchRun, batchLoop, batchStep, G]

/-! ### Claim C3 -/

/-- C3: the batch run from any initial `w0` performs at each of its `k`
iterations the update `w ← w - eta * G(w, x, y)` over the entire dataset
(i.e. the final weights are the `k`-fold iterate of `batchStep`), appends a
snapshot after every iteration, so the trajectory holds `k + 1` entries, and
its `j`-th entry is the `j`-fold iterate of `batchStep`. -/
theorem batch_run_spec (eta : ℚ) (xs ys : List ℚ) (w0 : ℚ × ℚ) (k j : Nat)
    (hj : j ≤ k) :
    (batchRun eta xs ys w0 k).2.length = k + 1
    ∧ (batchRun eta xs ys w0 k).1 = (batchStep eta xs ys)^[k] w0
    ∧ (batchRun eta xs ys w0 k).2.getD j (0, 0) = (batchStep eta xs ys)^[j] w0 := by
  refine ⟨?_, ?_, ?_⟩
  · rw [batchRun_traj]; simp
  · rw [batchRun, batchLoop_spec]
  · rw [batchRun_traj, getD_map_range]
    omega

/-- Witness for C3 at `eta = 1`, `xs = [0]`, `ys = [1]`, `w0 = (0,0)`,
`k = 2`, `j = 1`. -/
theorem batch_run_spec_witness :
    1 ≤ 2
    ∧ ((batchRun (1 : ℚ) [0] [1] (0, 0) 2).2.length = 2 + 1
       ∧ (batchRun (1 : ℚ) [0] [1] (0, 0) 2).1 = (batchStep (1 : ℚ) [0] [1])^[2] (0, 0)
       ∧ (batchRun (1 : ℚ) [0] [1] (0, 0) 2).2.getD 1 (0, 0)
           = (batchStep (1 : ℚ) [0] [1])^[1] (0, 0)) :=
  ⟨by decide, batch_run_spec 1 [0] [1] (0, 0) 2 1 (by decide)⟩

/-! ### Claim C9 -/

lemma datasetX_getD (k : Nat) (hk : k < 21) : datasetX.getD k 0 = (k : ℚ) / 20 := by
  rw [datasetX, getD_map_range _ _ _ _ hk]

/-- C9 counterexample: the dependent values are NOT `x + noise + 1.0`: the
code computes `y = x + noise*0.1 + 1.0`.  With every normal draw equal to 1,
the code's `y_0` is `1.1`, whereas the claimed formula gives `2`. -/
theorem dataset_generator_refuted :
    (datasetY (List.replicate 21 1)).getD 0 0 = 11 / 10
    ∧ datasetX.getD 0 0 + (List.replicate 21 (1 : ℚ)).getD 0 0 + 1 = 2
    ∧ (11 / 10 : ℚ) ≠ 2 := by
  refine ⟨?_, ?_, by norm_num⟩ <;>
    norm_num [datasetY, datasetX, List.range_succ]

/-- C9 (amended): the generator's independent values are the 21 evenly spaced
points over `[0,1]` (`x_0 = 0`, `x_20 = 1`, consecutive gap `1/20`), and for
each `x_i` the dependent value is `y_i = x_i + 0.1 * noise_i + 1.0`, where
`noise_i` is the `i`-th draw from the (externally modelled) standard-normal
source. -/
theorem dataset_generator (noise : List ℚ) (i j : Nat) (hi : i < 21)
    (hj : j < 20) (hn : noise.length = 21) :
    datasetX.length = 21
    ∧ datasetX.getD 0 0 = 0
    ∧ datasetX.getD 20 0 = 1
    ∧ datasetX.getD (j + 1) 0 - datasetX.getD j 0 = 1 / 20
    ∧ (datasetY noise).getD i 0 = datasetX.getD i 0 + noise.getD i 0 * (1 / 10) + 1 := by
  refine ⟨by simp [datasetX], ?_, ?_, ?_, ?_⟩
  · rw [datasetX_getD 0 (by omega)]; norm_num
  · rw [datasetX_getD 20 (by omega)]; norm_num
  · rw [datasetX_getD (j + 1) (by omega), datasetX_getD j (by omega)]
    push_cast
    ring
  · rw [datasetY, getD_zipWith _ _ _ _ 0 0 _ (by simp [datasetX]; omega) (by omega)]

/-- Witness for C9 at `noise = replicate 21 0`, `i = 5`, `j = 7`. -/
theorem dataset_generator_witness :
    (5 < 21 ∧ 7 < 20 ∧ (List.replicate 21 (0 : ℚ)).length = 21)
    ∧ (datasetX.length = 21
       ∧ datasetX.getD 0 0 = 0
       ∧ datasetX.getD 20 0 = 1
       ∧ datasetX.getD (7 + 1) 0 - datasetX.getD 7 0 = 1 / 20
       ∧ (datasetY (List.replicate 21 0)).getD 5 0
           = datasetX.getD 5 0 + (List.replicate 21 (0 : ℚ)).getD 5 0 * (1 / 10) + 1) :=
  ⟨⟨by decide, by decide, by simp⟩,
   dataset_generator (List.replicate 21 0) 5 7 (by decide) (by decide) (by simp)⟩

/-! ### Claim C7 -/

lemma bcastLen_of_eq {α : Type} {xs ys : List α} (hlen : xs.length = ys.length) :
    bcastLen xs ys = xs.length := by
  rw [bcastLen]
  split_ifs with h
  · exact hlen.symm
  · rfl

/-- C7 counterexample: the gradient evaluator does NOT fail on empty or
length-mismatched input: `G(w, [], [])` silently returns the zero gradient
`[0, 0]` (numpy's `sum([])` is `0`), and `G(w, [1,2], [4])` silently
broadcasts the length-1 array and returns `[-8, -12]`. -/
theorem gradient_shape_check_refuted :
    Gnp ((0 : ℚ), 0) [] [] = some (0, 0)
    ∧ Gnp ((0 : ℚ), 0) [1, 2] [4] = some (-8, -12) := by
  constructor <;> norm_num [Gnp, G, bcast, bcastLen, List.replicate]

/-- C7 (amended): the gradient evaluator is a pure function; on equal-length
inputs it returns `some (G w xs ys)`; it fails (broadcast error, `none`)
exactly when the lengths differ and neither is 1 — so a length-1 operand is
silently broadcast, and empty inputs silently yield the zero gradient
`[0, 0]` rather than failing. -/
theorem gradient_shape_check (w : ℚ × ℚ) (xs ys xs' ys' : List ℚ)
    (hlen : xs.length = ys.length) :
    Gnp w xs ys = some (G w xs ys)
    ∧ (Gnp w xs' ys' = none
         ↔ xs'.length ≠ ys'.length ∧ xs'.length ≠ 1 ∧ ys'.length ≠ 1)
    ∧ Gnp w [] [] = some (0, 0) := by
  refine ⟨?_, ?_, by norm_num [Gnp, G, bcast, bcastLen]⟩
  · rw [Gnp, if_pos (Or.inl hlen), bcastLen_of_eq hlen, bcast, if_pos rfl,
      bcast, if_pos hlen.symm]
  · rw [Gnp]
    split_ifs with h
    · simp only [Option.some_ne_none, false_iff]
      tauto
    · push_neg at h
      simp only [true_iff]
      tauto

/-- Witness for C7 at `w = (0,0)`, `xs = [1]`, `ys = [2]`, `xs' = [1,2]`,
`ys' = []`. -/
theorem gradient_shape_check_witness :
    ([(1 : ℚ)].length = [(2 : ℚ)].length)
    ∧ (Gnp ((0 : ℚ), 0) [1] [2] = some (G ((0 : ℚ), 0) [1] [2])
       ∧ (Gnp ((0 : ℚ), 0) [1, 2] ([] : List ℚ) = none
            ↔ [(1 : ℚ), 2].length ≠ ([] : List ℚ).length
              ∧ [(1 : ℚ), 2].length ≠ 1 ∧ ([] : List ℚ).length ≠ 1)
       ∧ Gnp ((0 : ℚ), 0) [] [] = some (0, 0)) :=
  ⟨rfl, gradient_shape_check ((0 : ℚ), 0) [1] [2] [1, 2] [] rfl⟩

/-! ### The shuffle stream and the shape of the per-point loops -/

/-- The concatenation of the first `n` epochs' index draws: epoch `i`
consumes the fresh draw `perms i` from the shared random stream. -/
def permStream (perms : Nat → List Nat) (n : Nat) : List Nat :=
  (List.range n).flatMap perms

lemma permStream_zero (perms : Nat → List Nat) : permStream perms 0 = [] := by
  simp [permStream]

lemma permStream_succ (perms : Nat → List Nat) (n : Nat) :
    permStream perms (n + 1) = permStream perms n ++ perms n := by
  simp [permStream, List.range_succ]

lemma scanl_eq_cons_tail {σ ι : Type} (f : σ → ι → σ) (s : σ) (l : List ι) :
    List.scanl f s l = s :: (List.scanl f s l).tail := by
  cases l <;> simp [List.scanl_nil, List.scanl_cons]

lemma scanl_append {σ ι : Type} (f : σ → ι → σ) :
    ∀ (l₁ l₂ : List ι) (s : σ),
      List.scanl f s (l₁ ++ l₂)
        = List.scanl f s l₁ ++ (List.scanl f (List.foldl f s l₁) l₂).tail := by
  intro l₁
  induction l₁ with
  | nil =>
      intro l₂ s
      simpa using scanl_eq_cons_tail f s l₂
  | cons a l ih =>
      intro l₂ s
      simp [List.scanl_cons, ih]

lemma length_scanl' {σ ι : Type} (f : σ → ι → σ) (s : σ) (l : List ι) :
    (List.scanl f s l).length = l.length + 1 :=
  List.length_scanl s l

lemma getD_scanl {σ ι : Type} (f : σ → ι → σ) (d : σ) :
    ∀ (l : List ι) (k : Nat) (s : σ), k ≤ l.length →
      (List.scanl f s l).getD k d = List.foldl f s (l.take k) := by
  intro l
  induction l with
  | nil =>
      intro k s hk
      have hk0 : k = 0 := by simpa using hk
      subst hk0
      simp [List.scanl_nil]
  | cons a l ih =>
      intro k s hk
      cases k with
      | zero => simp [List.scanl_cons]
      | succ k =>
          rw [List.scanl_cons]
          simpa [List.take_succ_cons] using ih k (f s a) (by simpa using hk)

lemma innerLoop_spec {σ β : Type} (f : σ → Nat → σ) (pr : σ → β) :
    ∀ (idx : List Nat) (s : σ) (traj : List β),
      innerLoop f pr idx (s, traj)
        = (List.foldl f s idx, traj ++ ((List.scanl f s idx).tail).map pr) := by
  intro idx
  induction idx with
  | nil => intro s traj; simp [innerLoop]
  | cons j idx ih =>
      intro s traj
      rw [innerLoop, List.foldl_cons]
      change innerLoop f pr idx (f s j, traj ++ [pr (f s j)]) = _
      rw [ih, List.scanl_cons]
      conv_rhs => rw [scanl_eq_cons_tail f (f s j) idx]
      simp

lemma outerLoop_spec {σ β : Type} (f : σ → Nat → σ) (pr : σ → β)
    (perms : Nat → List Nat) (s0 : σ) :
    ∀ n : Nat,
      outerLoop f pr perms s0 n
        = (List.foldl f s0 (permStream perms n),
           (List.scanl f s0 (permStream perms n)).map pr,
           (List.range (n + 1)).map
             (fun e => pr (List.foldl f s0 (permStream perms e)))) := by
  intro n
  induction n with
  | zero => simp [outerLoop, permStream_zero, List.range_succ]
  | succ n ih =>
      rw [outerLoop]
      simp only [ih, innerLoop_spec]
      rw [Prod.ext_iff, Prod.ext_iff]
      refine ⟨?_, ?_, ?_⟩
      · rw [permStream_succ, List.foldl_append]
      · show _ ++ List.map pr (List.scanl _ _ (perms n)).tail = _
        rw [permStream_succ, scanl_append, List.map_append, List.map_tail]
      · show _ ++ [pr (List.foldl f _ (perms n))] = _
        conv_rhs => rw [List.range_succ, List.map_append]
        congr 1
        simp [permStream_succ, List.foldl_append]

lemma length_permStream (perms : Nat → List Nat) (m : Nat)
    (hlen : ∀ i, (perms i).length = m) :
    ∀ n, (permStream perms n).length = n * m := by
  intro n
  induction n with
  | zero => simp [permStream_zero]
  | succ n ih =>
      rw [permStream_succ, List.length_append, ih, hlen]
      ring

lemma permStream_take (perms : Nat → List Nat) (m : Nat)
    (hlen : ∀ i, (perms i).length = m) :
    ∀ (n e : Nat), e ≤ n → (permStream perms n).take (e * m) = permStream perms e := by
  intro n
  induction n with
  | zero =>
      intro e he
      interval_cases e
      simp [permStream_zero]
  | succ n ih =>
      intro e he
      rcases Nat.lt_or_ge e (n + 1) with h | h
      · rw [permStream_succ, List.take_append_eq_append_take,
          ih e (by omega), Nat.sub_eq_zero_of_le, List.take_zero, List.append_nil]
        rw [length_permStream perms m hlen]
        exact Nat.mul_le_mul_right m (by omega)
      · have he' : e = n + 1 := by omega
        subst he'
        rw [← length_permStream perms m hlen (n + 1), List.take_length]

lemma getD_map {σ β : Type} (pr : σ → β) (l : List σ) (k : Nat) (dσ : σ) (dβ : β)
    (h : k < l.length) :
    (l.map pr).getD k dβ = pr (l.getD k dσ) := by
  rw [List.getD_eq_getElem _ _ (by simpa using h), List.getD_eq_getElem _ _ h]
  simp

lemma outerLoop_align {σ β : Type} (f : σ → Nat → σ) (pr : σ → β)
    (perms : Nat → List Nat) (s0 : σ) (dβ : β) (m epochs e : Nat)
    (hlen : ∀ i, (perms i).length = m) (he : e ≤ epochs) :
    (outerLoop f pr perms s0 epochs).2.2.length = epochs + 1
    ∧ (outerLoop f pr perms s0 epochs).2.1.length = epochs * m + 1
    ∧ (outerLoop f pr perms s0 epochs).2.2.getD e dβ
        = (outerLoop f pr perms s0 epochs).2.1.getD (e * m) dβ := by
  rw [outerLoop_spec]
  refine ⟨by simp, ?_, ?_⟩
  · simp [length_scanl', length_permStream perms m hlen epochs]
  · rw [getD_map_range _ _ _ _ (by omega)]
    have hsl : e * m ≤ (permStream perms epochs).length := by
      rw [length_permStream perms m hlen]
      exact Nat.mul_le_mul_right m he
    rw [getD_map pr _ _ s0 _ (by rw [length_scanl']; omega),
      getD_scanl f s0 _ _ _ hsl, permStream_take perms m hlen epochs e he]

/-! ### Claim C4 -/

/-- C4: in the stochastic run, epoch `i` consumes the fresh draw `perms i`
of the shared shuffle stream; provided each epoch's draw is a permutation of
all dataset indices (sampling without replacement), the per-step trajectory
is exactly the scan of single-point updates `w ← w - eta*G(w,[x_j],[y_j])`
along the concatenated per-epoch permutations (one update per data point, in
permuted order), it has `epochs * m + 1` entries, the epoch trajectory has
`epochs + 1` entries, and its `e`-th entry is the weight vector at the `e`-th
epoch boundary. -/
theorem sgd_run_spec (eta : ℚ) (xs ys : List ℚ) (perms : Nat → List Nat)
    (w0 : ℚ × ℚ) (epochs e : Nat)
    (hperm : ∀ i, (perms i).Perm (List.range xs.length)) (he : e ≤ epochs) :
    (sgdRun eta xs ys perms w0 epochs).2.1
        = List.scanl (sgdStep eta xs ys) w0 (permStream perms epochs)
    ∧ (sgdRun eta xs ys perms w0 epochs).2.1.length = epochs * xs.length + 1
    ∧ (sgdRun eta xs ys perms w0 epochs).2.2.length = epochs + 1
    ∧ (sgdRun eta xs ys perms w0 epochs).2.2.getD e (0, 0)
        = (sgdRun eta xs ys perms w0 e).1 := by
  have hlen : ∀ i, (perms i).length = xs.length := fun i => by
    simpa using (hperm i).length_eq
  rw [sgdRun, outerLoop_spec]
  refine ⟨by simp, ?_, by simp, ?_⟩
  · simp [length_scanl', length_permStream perms xs.length hlen epochs]
  · rw [getD_map_range _ _ _ _ (by omega), sgdRun, outerLoop_spec]
    rfl

/-- Witness for C4 at `eta = 1`, `xs = [0,1]`, `ys = [1,2]`,
`perms = fun _ => [1,0]`, `w0 = (0,0)`, `epochs = 2`, `e = 1`. -/
theorem sgd_run_spec_witness :
    (([1, 0] : List Nat).Perm (List.range 2) ∧ 1 ≤ 2)
    ∧ ((sgdRun (1 : ℚ) [0, 1] [1, 2] (fun _ => [1, 0]) (0, 0) 2).2.1
        = List.scanl (sgdStep (1 : ℚ) [0, 1] [1, 2]) (0, 0)
            (permStream (fun _ => [1, 0]) 2)
      ∧ (sgdRun (1 : ℚ) [0, 1] [1, 2] (fun _ => [1, 0]) (0, 0) 2).2.1.length
          = 2 * [(0 : ℚ), 1].length + 1
      ∧ (sgdRun (1 : ℚ) [0, 1] [1, 2] (fun _ => [1, 0]) (0, 0) 2).2.2.length = 2 + 1
      ∧ (sgdRun (1 : ℚ) [0, 1] [1, 2] (fun _ => [1, 0]) (0, 0) 2).2.2.getD 1 (0, 0)
          = (sgdRun (1 : ℚ) [0, 1] [1, 2] (fun _ => [1, 0]) (0, 0) 1).1) := by
  refine ⟨⟨by decide, by decide⟩,
    sgd_run_spec 1 [0, 1] [1, 2] (fun _ => [1, 0]) (0, 0) 2 1 ?_ (by decide)⟩
  intro i
  show ([1, 0] : List Nat).Perm (List.range 2)
  decide

/-! ### Claim C5 -/

lemma foldl_comm_of_step {σ τ : Type} (f₁ : σ → Nat → σ) (f₂ : τ → Nat → τ)
    (g : σ → τ) (hc : ∀ s j, g (f₁ s j) = f₂ (g s) j) :
    ∀ (l : List Nat) (s : σ), g (List.foldl f₁ s l) = List.foldl f₂ (g s) l := by
  intro l
  induction l with
  | nil => intro s; simp
  | cons a l ih => intro s; rw [List.foldl_cons, List.foldl_cons, ih, hc]

lemma scanl_comm_of_step {σ τ : Type} (f₁ : σ → Nat → σ) (f₂ : τ → Nat → τ)
    (g : σ → τ) (hc : ∀ s j, g (f₁ s j) = f₂ (g s) j) :
    ∀ (l : List Nat) (s : σ), (List.scanl f₁ s l).map g = List.scanl f₂ (g s) l := by
  intro l
  induction l with
  | nil => intro s; simp [List.scanl_nil]
  | cons a l ih =>
      intro s
      rw [List.scanl_cons, List.scanl_cons]
      simp only [List.map_cons, List.map_append, List.map_nil]
      rw [ih, hc]

lemma momentumStep_zero {α : Type} [Field α] (eta : α) (xs ys : List α)
    (s : (α × α) × (α × α)) (j : Nat) :
    (momentumStep eta 0 xs ys s j).1 = sgdStep eta xs ys s.1 j := by
  simp [momentumStep, sgdStep, pointStep]

/-- C5: with momentum coefficient 0, the momentum run from any initial `w`
over any fixed sequence of per-epoch index draws produces exactly the same
final weights, per-step trajectory, and epoch trajectory as the stochastic
(batch-size-1) run over the same draws. -/
theorem momentum_zero_is_sgd (eta : ℚ) (xs ys : List ℚ) (perms : Nat → List Nat)
    (w0 : ℚ × ℚ) (epochs : Nat) :
    (momentumRun eta 0 xs ys perms w0 epochs).1.1
        = (sgdRun eta xs ys perms w0 epochs).1
    ∧ (momentumRun eta 0 xs ys perms w0 epochs).2.1
        = (sgdRun eta xs ys perms w0 epochs).2.1
    ∧ (momentumRun eta 0 xs ys perms w0 epochs).2.2
        = (sgdRun eta xs ys perms w0 epochs).2.2 := by
  have hc : ∀ (s : (ℚ × ℚ) × (ℚ × ℚ)) (j : Nat),
      (momentumStep eta 0 xs ys s j).1 = sgdStep eta xs ys s.1 j :=
    momentumStep_zero eta xs ys
  rw [momentumRun, sgdRun, outerLoop_spec, outerLoop_spec]
  refine ⟨?_, ?_, ?_⟩
  · exact foldl_comm_of_step _ _ Prod.fst hc _ _
  · rw [List.map_id]
    exact scanl_comm_of_step _ _ Prod.fst hc _ _
  · refine List.map_congr_left (fun e _ => ?_)
    show Prod.fst (List.foldl (momentumStep eta 0 xs ys) (w0, (0, 0)) _) = _
    rw [foldl_comm_of_step _ _ Prod.fst hc]
    rfl

/-! ### Claim C10 -/

/-- C10: in every per-point run (stochastic, momentum, RMSprop) over a
dataset of `m` points with one length-`m` index draw per epoch, the epoch
trajectory has one entry per epoch boundary and is the subsequence of the
per-step trajectory at multiples of `m`: the `e`-th epoch entry equals the
`(e*m)`-th per-step entry.  (All recorded snapshots are immutable values of
the model, so later updates cannot modify them.) -/
theorem epoch_traj_subsequence (eta mom : ℝ) (xs ys : List ℝ)
    (perms : Nat → List Nat) (w0 : ℝ × ℝ) (epochs e : Nat)
    (hlen : ∀ i, (perms i).length = xs.length) (he : e ≤ epochs) :
    ((sgdRun eta xs ys perms w0 epochs).2.2.length = epochs + 1
      ∧ (sgdRun eta xs ys perms w0 epochs).2.2.getD e (0, 0)
          = (sgdRun eta xs ys perms w0 epochs).2.1.getD (e * xs.length) (0, 0))
    ∧ ((momentumRun eta mom xs ys perms w0 epochs).2.2.length = epochs + 1
      ∧ (momentumRun eta mom xs ys perms w0 epochs).2.2.getD e (0, 0)
          = (momentumRun eta mom xs ys perms w0 epochs).2.1.getD (e * xs.length) (0, 0))
    ∧ ((rmspropRun eta mom xs ys perms w0 epochs).2.2.length = epochs + 1
      ∧ (rmspropRun eta mom xs ys perms w0 epochs).2.2.getD e (0, 0)
          = (rmspropRun eta mom xs ys perms w0 epochs).2.1.getD (e * xs.length) (0, 0)) := by
  refine ⟨?_, ?_, ?_⟩
  · have h := outerLoop_align (sgdStep eta xs ys) id perms w0 (0, 0)
      xs.length epochs e hlen he
    exact ⟨h.1, h.2.2⟩
  · have h := outerLoop_align (momentumStep eta mom xs ys) Prod.fst perms
      (w0, (0, 0)) (0, 0) xs.length epochs e hlen he
    exact ⟨h.1, h.2.2⟩
  · have h := outerLoop_align (rmspropStep eta mom xs ys) Prod.fst perms
      (w0, (0, 0)) (0, 0) xs.length epochs e hlen he
    exact ⟨h.1, h.2.2⟩

/-- Witness for C10 at `eta = 1`, `mom = 0`, `xs = [0,1]`, `ys = [1,2]`,
`perms = fun _ => [0,1]`, `w0 = (0,0)`, `epochs = 1`, `e = 1`. -/
theorem epoch_traj_subsequence_witness :
    (([0, 1] : List Nat).length = [(0 : ℝ), 1].length ∧ 1 ≤ 1)
    ∧ (((sgdRun (1 : ℝ) [0, 1] [1, 2] (fun _ => [0, 1]) (0, 0) 1).2.2.length = 1 + 1
        ∧ (sgdRun (1 : ℝ) [0, 1] [1, 2] (fun _ => [0, 1]) (0, 0) 1).2.2.getD 1 (0, 0)
            = (sgdRun (1 : ℝ) [0, 1] [1, 2] (fun _ => [0, 1]) (0, 0) 1).2.1.getD
                (1 * [(0 : ℝ), 1].length) (0, 0))
      ∧ ((momentumRun (1 : ℝ) 0 [0, 1] [1, 2] (fun _ => [0, 1]) (0, 0) 1).2.2.length = 1 + 1
        ∧ (momentumRun (1 : ℝ) 0 [0, 1] [1, 2] (fun _ => [0, 1]) (0, 0) 1).2.2.getD 1 (0, 0)
            = (momentumRun (1 : ℝ) 0 [0, 1] [1, 2] (fun _ => [0, 1]) (0, 0) 1).2.1.getD
                (1 * [(0 : ℝ), 1].length) (0, 0))
      ∧ ((rmspropRun (1 : ℝ) 0 [0, 1] [1, 2] (fun _ => [0, 1]) (0, 0) 1).2.2.length = 1 + 1
        ∧ (rmspropRun (1 : ℝ) 0 [0, 1] [1, 2] (fun _ => [0, 1]) (0, 0) 1).2.2.getD 1 (0, 0)
            = (rmspropRun (1 : ℝ) 0 [0, 1] [1, 2] (fun _ => [0, 1]) (0, 0) 1).2.1.getD
                (1 * [(0 : ℝ), 1].length) (0, 0))) :=
  ⟨⟨rfl, le_refl 1⟩,
   epoch_traj_subsequence 1 0 [0, 1] [1, 2] (fun _ => [0, 1]) (0, 0) 1 1
     (fun _ => rfl) (le_refl 1)⟩

/-! ### Claim C6 -/

/-- C6: on the first RMSprop step (accumulator `g2` initialised to `0`,
`epsilon = 1e-8`), the updated accumulator is `(1-momentum) * gradient_0^2`
element-wise, the weight update divides by
`sqrt((1-momentum) * gradient_0^2) + 1e-8` element-wise, and that
denominator is strictly positive — so the division is never by zero. -/
theorem rmsprop_first_denominator (eta mom : ℝ) (xs ys : List ℝ) (w : ℝ × ℝ)
    (j : Nat) (hm : mom ≤ 1) :
    (rmspropStep eta mom xs ys (w, (0, 0)) j).2
        = ((1 - mom) * (G w [xs.getD j 0] [ys.getD j 0]).1 ^ 2,
           (1 - mom) * (G w [xs.getD j 0] [ys.getD j 0]).2 ^ 2)
    ∧ (rmspropStep eta mom xs ys (w, (0, 0)) j).1
        = (w.1 - eta * (G w [xs.getD j 0] [ys.getD j 0]).1
              / (Real.sqrt ((1 - mom) * (G w [xs.getD j 0] [ys.getD j 0]).1 ^ 2)
                  + 1 / 10 ^ 8),
           w.2 - eta * (G w [xs.getD j 0] [ys.getD j 0]).2
              / (Real.sqrt ((1 - mom) * (G w [xs.getD j 0] [ys.getD j 0]).2 ^ 2)
                  + 1 / 10 ^ 8))
    ∧ 0 < Real.sqrt ((1 - mom) * (G w [xs.getD j 0] [ys.getD j 0]).1 ^ 2) + 1 / 10 ^ 8
    ∧ 0 < Real.sqrt ((1 - mom) * (G w [xs.getD j 0] [ys.getD j 0]).2 ^ 2) + 1 / 10 ^ 8 := by
  refine ⟨by simp [rmspropStep], by simp [rmspropStep], ?_, ?_⟩ <;>
    exact add_pos_of_nonneg_of_pos (Real.sqrt_nonneg _) (by norm_num)

/-- Witness for C6 at `eta = 1`, `mom = 1/2`, `xs = [0]`, `ys = [1]`,
`w = (0,0)`, `j = 0`. -/
theorem rmsprop_first_denominator_witness :
    ((1 / 2 : ℝ) ≤ 1)
    ∧ ((rmspropStep 1 (1 / 2) [0] [1] (((0 : ℝ), 0), (0, 0)) 0).2
          = ((1 - 1 / 2) * (G ((0 : ℝ), 0) [[(0 : ℝ)].getD 0 0] [[(1 : ℝ)].getD 0 0]).1 ^ 2,
             (1 - 1 / 2) * (G ((0 : ℝ), 0) [[(0 : ℝ)].getD 0 0] [[(1 : ℝ)].getD 0 0]).2 ^ 2)
      ∧ (rmspropStep 1 (1 / 2) [0] [1] (((0 : ℝ), 0), (0, 0)) 0).1
          = (((0 : ℝ), 0).1 - 1 * (G ((0 : ℝ), 0) [[(0 : ℝ)].getD 0 0] [[(1 : ℝ)].getD 0 0]).1
                / (Real.sqrt ((1 - 1 / 2)
                      * (G ((0 : ℝ), 0) [[(0 : ℝ)].getD 0 0] [[(1 : ℝ)].getD 0 0]).1 ^ 2)
                    + 1 / 10 ^ 8),
             ((0 : ℝ), 0).2 - 1 * (G ((0 : ℝ), 0) [[(0 : ℝ)].getD 0 0] [[(1 : ℝ)].getD 0 0]).2
                / (Real.sqrt ((1 - 1 / 2)
                      * (G ((0 : ℝ), 0) [[(0 : ℝ)].getD 0 0] [[(1 : ℝ)].getD 0 0]).2 ^ 2)
                    + 1 / 10 ^ 8))
      ∧ 0 < Real.sqrt ((1 - 1 / 2)
              * (G ((0 : ℝ), 0) [[(0 : ℝ)].getD 0 0] [[(1 : ℝ)].getD 0 0]).1 ^ 2) + 1 / 10 ^ 8
      ∧ 0 < Real.sqrt ((1 - 1 / 2)
              * (G ((0 : ℝ), 0) [[(0 : ℝ)].getD 0 0] [[(1 : ℝ)].getD 0 0]).2 ^ 2) + 1 / 10 ^ 8) :=
  ⟨by norm_num,
   rmsprop_first_denominator 1 (1 / 2) [0] [1] ((0 : ℝ), 0) 0 (by norm_num)⟩

/-! ### Claim C2 -/

lemma L_nil_left {α : Type} [Field α] (w : α × α) (ys : List α) : L w [] ys = 0 := by
  simp [L]

lemma L_nil_right {α : Type} [Field α] (w : α × α) (xs : List α) : L w xs [] = 0 := by
  cases xs <;> simp [L]

lemma L_cons {α : Type} [Field α] (w : α × α) (x y : α) (xs ys : List α) :
    L w (x :: xs) (y :: ys) = 1 / 2 * (y - w.1 - w.2 * x) ^ 2 + L w xs ys := by
  simp [L]
  ring

lemma G_nil_left {α : Type} [Field α] (w : α × α) (ys : List α) : G w [] ys = (0, 0) := by
  simp [G]

lemma G_nil_right {α : Type} [Field α] (w : α × α) (xs : List α) : G w xs [] = (0, 0) := by
  cases xs <;> simp [G]

lemma G_fst_cons {α : Type} [Field α] (w : α × α) (x y : α) (xs ys : List α) :
    (G w (x :: xs) (y :: ys)).1 = -(y - w.1 - w.2 * x) + (G w xs ys).1 := by
  simp [G]
  ring

lemma G_snd_cons {α : Type} [Field α] (w : α × α) (x y : α) (xs ys : List α) :
    (G w (x :: xs) (y :: ys)).2 = -((y - w.1 - w.2 * x) * x) + (G w xs ys).2 := by
  simp [G]
  ring

lemma hasDerivAt_L_fst (b : ℝ) :
    ∀ (xs ys : List ℝ) (a : ℝ),
      HasDerivAt (fun t => L (t, b) xs ys) (G (a, b) xs ys).1 a := by
  intro xs
  induction xs with
  | nil =>
      intro ys a
      simp only [L_nil_left, G_nil_left]
      exact hasDerivAt_const a 0
  | cons x xs ih =>
      intro ys a
      cases ys with
      | nil =>
          simp only [L_nil_right, G_nil_right]
          exact hasDerivAt_const a 0
      | cons y ys =>
          have h1 : HasDerivAt (fun t : ℝ => y - t - b * x) (-1) a := by
            simpa using ((hasDerivAt_id a).const_sub y).sub_const (b * x)
          have h2 : HasDerivAt (fun t : ℝ => 1 / 2 * (y - t - b * x) ^ 2)
              (-(y - a - b * x)) a := by
            have h := (h1.pow 2).const_mul (1 / 2 : ℝ)
            convert h using 1
            ring
          have h3 := h2.add (ih ys a)
          simp only [L_cons, G_fst_cons]
          exact h3

lemma hasDerivAt_L_snd (a : ℝ) :
    ∀ (xs ys : List ℝ) (b : ℝ),
      HasDerivAt (fun t => L (a, t) xs ys) (G (a, b) xs ys).2 b := by
  intro xs
  induction xs with
  | nil =>
      intro ys b
      simp only [L_nil_left, G_nil_left]
      exact hasDerivAt_const b 0
  | cons x xs ih =>
      intro ys b
      cases ys with
      | nil =>
          simp only [L_nil_right, G_nil_right]
          exact hasDerivAt_const b 0
      | cons y ys =>
          have h1 : HasDerivAt (fun t : ℝ => y - a - t * x) (-x) b := by
            simpa using ((hasDerivAt_id b).mul_const x).const_sub (y - a)
          have h2 : HasDerivAt (fun t : ℝ => 1 / 2 * (y - a - t * x) ^ 2)
              (-((y - a - b * x) * x)) b := by
            have h := (h1.pow 2).const_mul (1 / 2 : ℝ)
            convert h using 1
            ring
          have h3 := h2.add (ih ys b)
          simp only [L_cons, G_snd_cons]
          exact h3

lemma zipWith_sum_range (f : ℝ → ℝ → ℝ) :
    ∀ (xs ys : List ℝ), xs.length = ys.length →
      (List.zipWith f xs ys).sum
        = ∑ i ∈ Finset.range xs.length, f (xs.getD i 0) (ys.getD i 0) := by
  intro xs
  induction xs with
  | nil => intro ys h; simp
  | cons x xs ih =>
      intro ys h
      cases ys with
      | nil => simp at h
      | cons y ys =>
          rw [List.zipWith_cons_cons, List.sum_cons, ih ys (by simpa using h),
            List.length_cons, Finset.sum_range_succ']
          simp [add_comm]

/-- C2: for every 2-vector `w` and equal-length non-empty data, `G(w,xs,ys)`
is exactly the pair of sums `[-Σ (y_i - w0 - w1*x_i), -Σ (y_i - w0 - w1*x_i)*x_i]`,
and these are the partial derivatives (the gradient) of the loss
`L(w) = 1/2 * Σ (y_i - w0 - w1*x_i)^2` at `w`. -/
theorem G_is_gradient (w : ℝ × ℝ) (xs ys : List ℝ)
    (hlen : xs.length = ys.length) (hne : xs ≠ []) :
    G w xs ys
      = (-(∑ i ∈ Finset.range xs.length,
            (ys.getD i 0 - w.1 - w.2 * xs.getD i 0)),
         -(∑ i ∈ Finset.range xs.length,
            (ys.getD i 0 - w.1 - w.2 * xs.getD i 0) * xs.getD i 0))
    ∧ HasDerivAt (fun t => L (t, w.2) xs ys) (G w xs ys).1 w.1
    ∧ HasDerivAt (fun t => L (w.1, t) xs ys) (G w xs ys).2 w.2 := by
  refine ⟨?_, ?_, ?_⟩
  · rw [G, zipWith_sum_range _ xs ys hlen, zipWith_sum_range _ xs ys hlen]
  · simpa using hasDerivAt_L_fst w.2 xs ys w.1
  · simpa using hasDerivAt_L_snd w.1 xs ys w.2

/-- Witness for C2 at `w = (1,2)`, `xs = [3]`, `ys = [4]`. -/
theorem G_is_gradient_witness :
    ([(3 : ℝ)].length = [(4 : ℝ)].length ∧ [(3 : ℝ)] ≠ [])
    ∧ (G ((1 : ℝ), 2) [3] [4]
        = (-(∑ i ∈ Finset.range [(3 : ℝ)].length,
              ([(4 : ℝ)].getD i 0 - ((1 : ℝ), 2).1 - ((1 : ℝ), 2).2 * [(3 : ℝ)].getD i 0)),
           -(∑ i ∈ Finset.range [(3 : ℝ)].length,
              ([(4 : ℝ)].getD i 0 - ((1 : ℝ), 2).1 - ((1 : ℝ), 2).2 * [(3 : ℝ)].getD i 0)
                * [(3 : ℝ)].getD i 0))
      ∧ HasDerivAt (fun t => L (t, ((1 : ℝ), 2).2) [3] [4])
          (G ((1 : ℝ), 2) [3] [4]).1 ((1 : ℝ), 2).1
      ∧ HasDerivAt (fun t => L (((1 : ℝ), 2).1, t) [3] [4])
          (G ((1 : ℝ), 2) [3] [4]).2 ((1 : ℝ), 2).2) :=
  ⟨⟨rfl, by simp⟩, G_is_gradient ((1 : ℝ), 2) [3] [4] rfl (by simp)⟩

/-! ### Claim C8 -/

lemma L_shift (w : ℚ × ℚ) (a b eta : ℚ) :
    ∀ (xs ys : List ℚ), xs.length = ys.length →
      L (w.1 - eta * a, w.2 - eta * b) xs ys
        = L w xs ys
          + eta * (a * (List.zipWith (fun x y => y - w.1 - w.2 * x) xs ys).sum
                   + b * (List.zipWith (fun x y => (y - w.1 - w.2 * x) * x) xs ys).sum)
          + eta ^ 2 / 2 * (xs.map (fun x => (a + b * x) ^ 2)).sum := by
  intro xs
  induction xs with
  | nil => intro ys h; simp [L]
  | cons x xs ih =>
      intro ys h
      cases ys with
      | nil => simp at h
      | cons y ys =>
          simp only [L_cons, List.zipWith_cons_cons, List.sum_cons, List.map_cons]
          rw [ih ys (by simpa using h)]
          ring

lemma sum_sq_nonneg (a b : ℚ) (xs : List ℚ) :
    0 ≤ (xs.map (fun x => (a + b * x) ^ 2)).sum := by
  refine List.sum_nonneg ?_
  intro q hq
  simp only [List.mem_map] at hq
  obtain ⟨x, _, rfl⟩ := hq
  positivity

/-- C8: for every valid dataset (equal-length, non-empty) and parameter
vector `w` with nonzero gradient, there is a positive threshold such that
for every learning rate `0 < eta` below it, the single batch step
`w - eta * G(w, xs, ys)` does not increase the loss. -/
theorem small_step_decreases_loss (xs ys : List ℚ) (w : ℚ × ℚ)
    (hlen : xs.length = ys.length) (hne : xs ≠ [])
    (hg : G w xs ys ≠ (0, 0)) :
    ∃ t : ℚ, 0 < t ∧ ∀ eta : ℚ, 0 < eta → eta < t →
      L (batchStep eta xs ys w) xs ys ≤ L w xs ys := by
  set g0 := (G w xs ys).1 with hg0
  set g1 := (G w xs ys).2 with hg1
  set A := (xs.map (fun x => (g0 + g1 * x) ^ 2)).sum with hA_def
  have hA : 0 ≤ A := sum_sq_nonneg g0 g1 xs
  have hgsq : 0 < g0 ^ 2 + g1 ^ 2 := by
    have hne0 : g0 ≠ 0 ∨ g1 ≠ 0 := by
      by_contra hcon
      push_neg at hcon
      exact hg (Prod.ext hcon.1 hcon.2)
    rcases hne0 with h | h
    · have h0 : 0 < g0 ^ 2 := by positivity
      nlinarith [sq_nonneg g1]
    · have h0 : 0 < g1 ^ 2 := by positivity
      nlinarith [sq_nonneg g0]
  have hS0 : (List.zipWith (fun x y => y - w.1 - w.2 * x) xs ys).sum = -g0 := by
    rw [hg0, G]
    ring
  have hS1 : (List.zipWith (fun x y => (y - w.1 - w.2 * x) * x) xs ys).sum = -g1 := by
    rw [hg1, G]
    ring
  have key : ∀ eta : ℚ, L (batchStep eta xs ys w) xs ys
      = L w xs ys - eta * (g0 ^ 2 + g1 ^ 2) + eta ^ 2 / 2 * A := by
    intro eta
    rw [batchStep, ← hg0, ← hg1, L_shift w g0 g1 eta xs ys hlen, hS0, hS1, ← hA_def]
    ring
  by_cases hA0 : A = 0
  · refine ⟨1, by norm_num, ?_⟩
    intro eta h1 _
    rw [key eta, hA0]
    nlinarith [mul_pos h1 hgsq]
  · have hApos : 0 < A := lt_of_le_of_ne hA (Ne.symm hA0)
    refine ⟨2 * (g0 ^ 2 + g1 ^ 2) / A, by positivity, ?_⟩
    intro eta h1 h2
    rw [key eta]
    have h3 : eta * A < 2 * (g0 ^ 2 + g1 ^ 2) := by
      rwa [lt_div_iff₀ hApos] at h2
    nlinarith [mul_lt_mul_of_pos_left h3 h1]

/-- Witness for C8 at `xs = [0]`, `ys = [1]`, `w = (0,0)` (gradient `(-1,0)`). -/
theorem small_step_decreases_loss_witness :
    ([(0 : ℚ)].length = [(1 : ℚ)].length ∧ [(0 : ℚ)] ≠ []
      ∧ G ((0 : ℚ), 0) [0] [1] ≠ (0, 0))
    ∧ (∃ t : ℚ, 0 < t ∧ ∀ eta : ℚ, 0 < eta → eta < t →
        L (batchStep eta [0] [1] ((0 : ℚ), 0)) [0] [1] ≤ L ((0 : ℚ), 0) [0] [1]) :=
  ⟨⟨rfl, by simp, by norm_num [G]⟩,
   small_step_decreases_loss [0] [1] ((0 : ℚ), 0) rfl (by simp) (by norm_num [G])⟩

end SGD
